import Mathlib

/-!
Verification development for the aiAgents_database repository.

The file shallowly embeds the parts of the code that the verified
properties are about:

* `rag/chunker.py` — `TextChunker.chunk_text`, embedded as a fuel-based
  loop over `Int` indices with Python slice / `str.rfind` semantics
  (negative indices normalised the way CPython normalises them);
* `mcp/protocol.py` — `MCPResponse.to_dict` / `from_dict`, with Python
  truthiness of the `error` field modelled explicitly;
* `mcp/server.py` — the `/mcp` POST dispatch;
* `rag/retriever.py`, `rag/generator.py`, `rag/pipeline.py` — retrieval,
  context formatting and the query pipeline, with the vector store and
  the LLM backend abstracted as function parameters.
-/

namespace Chunker

/-- Configuration carried by a `TextChunker` instance
(`chunk_size`, `chunk_overlap`). -/
structure Config where
  chunk_size : Int
  chunk_overlap : Int
deriving DecidableEq, Repr

/-- `TextChunker.__init__` from `rag/chunker.py`: it stores the two
parameters and performs no validation at all. -/
def TextChunker.init (chunk_size chunk_overlap : Int) : Except String Config :=
  Except.ok { chunk_size := chunk_size, chunk_overlap := chunk_overlap }

/-- The characters Python `str.strip()` removes. -/
def pyWhitespace (c : Char) : Bool :=
  c == ' ' || c == '\t' || c == '\n' || c == '\r' || c == '\x0B' || c == '\x0C'

/-- Python `str.strip()` on a list of characters. -/
def pyStrip (l : List Char) : List Char :=
  ((l.dropWhile pyWhitespace).reverse.dropWhile pyWhitespace).reverse

/-- CPython normalisation of a slice endpoint against a string of length
`len`: negative indices count from the end (clamped below at 0),
non-negative ones are clamped above at `len`. -/
def normIndex (len : Nat) (i : Int) : Nat :=
  if i < 0 then ((len : Int) + i).toNat else min i.toNat len

/-- Python `text[a:b]` on a list of characters. -/
def pySlice (text : List Char) (a b : Int) : List Char :=
  (text.drop (normIndex text.length a)).take (normIndex text.length b - normIndex text.length a)

/-- Largest element of `l` satisfying `p`, as an `Int`, `-1` when none does. -/
def maxIdx (p : Nat → Bool) : List Nat → Int
  | [] => -1
  | i :: is => max (if p i then (i : Int) else -1) (maxIdx p is)

/-- Python `text.rfind(c, a, b)`: the largest index `i` in the normalised
window `[a, b)` with `text[i] = c`, and `-1` when there is none. -/
def pyRfind (text : List Char) (c : Char) (a b : Int) : Int :=
  maxIdx
    (fun i => decide (normIndex text.length a ≤ i) && (text.get? i == some c))
    (List.range (normIndex text.length b))

/-- The chunk-end computation of one iteration of
`TextChunker.chunk_text`: tentative end `start + chunk_size`; when that
lands strictly before the end of `text`, the rightmost `'.'`, `'\n'` or
`' '` in the window is looked up with three `rfind` calls and, when the
maximum `split_point` exceeds `start`, the end snaps to `split_point + 1`. -/
def chunkEndAt (cfg : Config) (text : List Char) (start : Int) : Int :=
  let e := start + cfg.chunk_size
  if e < (text.length : Int) then
    let lp := pyRfind text '.' start e
    let ln := pyRfind text '\n' start e
    let ls := pyRfind text ' ' start e
    let sp := max lp (max ln ls)
    if sp > start then sp + 1 else e
  else e

/-- One recorded chunk: the stripped text together with the
`chunk_start` / `chunk_end` / `chunk_index` metadata the code attaches. -/
structure Chunk where
  text : List Char
  chunk_start : Int
  chunk_end : Int
  chunk_index : Nat
deriving DecidableEq, Repr

/-- `text[start:end].strip()` for the current iteration. -/
def pieceAt (cfg : Config) (text : List Char) (start : Int) : List Char :=
  pyStrip (pySlice text start (chunkEndAt cfg text start))

/-- The accumulator update of one iteration: a chunk is appended exactly
when the stripped slice is non-empty, with `chunk_index = len(chunks)`. -/
def nextAcc (cfg : Config) (text : List Char) (start : Int) (acc : List Chunk) : List Chunk :=
  if pieceAt cfg text start = [] then acc
  else acc ++ [{ text := pieceAt cfg text start, chunk_start := start,
                 chunk_end := chunkEndAt cfg text start, chunk_index := acc.length }]

/-- The advance rule: `start = end - chunk_overlap` when `end < len(text)`,
otherwise `start = end`. -/
def nextStart (cfg : Config) (text : List Char) (start : Int) : Int :=
  if chunkEndAt cfg text start < (text.length : Int) then
    chunkEndAt cfg text start - cfg.chunk_overlap
  else chunkEndAt cfg text start

/-- The `while start < len(text)` loop of `chunk_text`, with explicit fuel;
`none` means the fuel ran out before the loop exited. -/
def chunkLoop (cfg : Config) (text : List Char) : Nat → Int → List Chunk → Option (List Chunk)
  | 0, start, acc => if start < (text.length : Int) then none else some acc
  | fuel + 1, start, acc =>
    if start < (text.length : Int) then
      chunkLoop cfg text fuel (nextStart cfg text start) (nextAcc cfg text start acc)
    else some acc

/-- `TextChunker.chunk_text`: empty input short-circuits to `[]`,
otherwise the loop runs from `start = 0`. -/
def chunk_text (cfg : Config) (text : List Char) (fuel : Nat) : Option (List Chunk) :=
  if text = [] then some [] else chunkLoop cfg text fuel 0 []

/-- `chunk_text` loops forever on this input: no amount of fuel makes the
loop exit. -/
def chunkTextDiverges (cfg : Config) (text : List Char) : Prop :=
  ∀ fuel, chunk_text cfg text fuel = none

/-- Modelled from the spec: is the character at index `i` one of the three
boundary delimiters `'.'`, `'\n'`, `' '`? -/
def delimAt (text : List Char) (i : Nat) : Bool :=
  (text.get? i == some '.') || ((text.get? i == some '\n') || (text.get? i == some ' '))

/-- The spec's wording of the boundary rule: tentative end
`start + chunk_size`; when it lands strictly before `len(text)`, take the
maximum index `p` in `[start, end)` holding any of the three delimiters
(no delimiter-type priority) and snap to `p + 1` provided `p > start`;
otherwise keep the hard cut. -/
def specChunkEnd (cfg : Config) (text : List Char) (start : Int) : Int :=
  let e := start + cfg.chunk_size
  if e < (text.length : Int) then
    let p := maxIdx (fun i => decide (start ≤ (i : Int)) && delimAt text i) (List.range e.toNat)
    if p > start then p + 1 else e
  else e

/-- The spans of `chunks` cover every position of `text` (coverage with
no gaps, as claimed by the spec). -/
def coversAll (text : List Char) (chunks : List Chunk) : Prop :=
  ∀ i ∈ List.range text.length,
    ∃ c ∈ chunks, c.chunk_start ≤ (i : Int) ∧ (i : Int) < c.chunk_end

/-- Each chunk shares exactly `overlap` span positions with its successor. -/
def sharesExactOverlap (overlap : Int) (chunks : List Chunk) : Prop :=
  ∀ p ∈ chunks.zip (chunks.drop 1),
    max 0 (min p.1.chunk_end p.2.chunk_end - max p.1.chunk_start p.2.chunk_start) = overlap

/-- Every recorded offset pair satisfies
`0 ≤ chunk_start < chunk_end ≤ len(text)`. -/
def offsetsWithin (text : List Char) (chunks : List Chunk) : Prop :=
  ∀ c ∈ chunks, 0 ≤ c.chunk_start ∧ c.chunk_start < c.chunk_end ∧
    c.chunk_end ≤ (text.length : Int)

/-- The conjunction claimed by the spec for the output of `chunk_text`. -/
def chunkSpanClaim (cfg : Config) (text : List Char) (chunks : List Chunk) : Prop :=
  coversAll text chunks ∧ sharesExactOverlap cfg.chunk_overlap chunks ∧
    offsetsWithin text chunks

/-- The per-chunk facts that do hold of every recorded chunk. -/
def chunkP (cfg : Config) (text : List Char) (c : Chunk) : Prop :=
  0 ≤ c.chunk_start ∧ c.chunk_start < c.chunk_end ∧
  c.chunk_end ≤ c.chunk_start + cfg.chunk_size ∧
  c.chunk_start < (text.length : Int) ∧
  c.chunk_end = chunkEndAt cfg text c.chunk_start

lemma chunkLoop_fixpoint (cfg : Config) (text : List Char) (s : Int)
    (hs : s < (text.length : Int)) (hfix : nextStart cfg text s = s) :
    ∀ fuel acc, chunkLoop cfg text fuel s acc = none := by
  intro fuel
  induction fuel with
  | zero => intro acc; simp [chunkLoop, hs]
  | succ n ih =>
    intro acc
    simp only [chunkLoop]
    rw [if_pos hs, hfix]
    exact ih _

lemma maxIdx_neg_one_le (p : Nat → Bool) : ∀ l, -1 ≤ maxIdx p l
  | [] => le_refl _
  | i :: is => by
    simp only [maxIdx]
    have := maxIdx_neg_one_le p is
    split <;> omega

lemma maxIdx_lt (p : Nat → Bool) (n : Int) :
    ∀ l : List Nat, (∀ i ∈ l, (i : Int) < n) → -1 < n → maxIdx p l < n
  | [], _, hn => by simpa [maxIdx] using hn
  | i :: is, h, hn => by
    simp only [maxIdx]
    have h1 : (i : Int) < n := h i (by simp)
    have h2 := maxIdx_lt p n is (fun j hj => h j (by simp [hj])) hn
    split <;> omega

lemma pyRfind_lt (text : List Char) (c : Char) (a : Int) {b : Int} (hb : 0 ≤ b) :
    pyRfind text c a b < b := by
  unfold pyRfind
  have hnb : normIndex text.length b ≤ b.toNat := by
    unfold normIndex
    rw [if_neg (by omega)]
    omega
  apply maxIdx_lt
  · intro i hi
    rw [List.mem_range] at hi
    omega
  · omega

lemma pyRfind_ge (text : List Char) (c : Char) (a b : Int) : -1 ≤ pyRfind text c a b :=
  maxIdx_neg_one_le _ _

lemma chunkEndAt_bounds (cfg : Config) (text : List Char) {start : Int}
    (h0 : 0 ≤ start + cfg.chunk_size) (hsz : 0 < cfg.chunk_size) :
    start < chunkEndAt cfg text start ∧
    chunkEndAt cfg text start ≤ start + cfg.chunk_size ∧
    0 ≤ chunkEndAt cfg text start := by
  have l1 := pyRfind_lt text '.' start h0
  have l2 := pyRfind_lt text '\n' start h0
  have l3 := pyRfind_lt text ' ' start h0
  have g1 := pyRfind_ge text '.' start (start + cfg.chunk_size)
  have g2 := pyRfind_ge text '\n' start (start + cfg.chunk_size)
  have g3 := pyRfind_ge text ' ' start (start + cfg.chunk_size)
  simp only [chunkEndAt]
  split
  · split <;> omega
  · omega

lemma chunkEndAt_lt_len (cfg : Config) (text : List Char) {start : Int}
    (h : chunkEndAt cfg text start < (text.length : Int)) :
    start + cfg.chunk_size < (text.length : Int) := by
  by_contra hc
  have heq : chunkEndAt cfg text start = start + cfg.chunk_size := by
    simp only [chunkEndAt]
    rw [if_neg (by omega)]
  omega

lemma pieceAt_empty (cfg : Config) (text : List Char) {start : Int}
    (hneg : start < 0) (hsz : 0 < cfg.chunk_size)
    (h0 : 0 ≤ start + cfg.chunk_size) (hlen : cfg.chunk_size ≤ (text.length : Int)) :
    pieceAt cfg text start = [] := by
  obtain ⟨hb1, hb2, hb3⟩ := chunkEndAt_bounds cfg text h0 hsz
  unfold pieceAt pySlice
  have hna : normIndex text.length start = ((text.length : Int) + start).toNat := by
    unfold normIndex
    rw [if_pos hneg]
  have hnb : normIndex text.length (chunkEndAt cfg text start) ≤
      ((text.length : Int) + start).toNat := by
    unfold normIndex
    rw [if_neg (by omega)]
    omega
  have hz : normIndex text.length (chunkEndAt cfg text start) -
      normIndex text.length start = 0 := by omega
  rw [hz]
  simp [pyStrip]

/-- The loop invariant of `chunk_text`: with a well-formed configuration,
every chunk the loop has recorded satisfies `chunkP`, and every recorded
chunk other than the most recent one ends strictly before `len(text)`. -/
lemma chunkLoop_inv (cfg : Config) (text : List Char)
    (hov : 0 ≤ cfg.chunk_overlap) (hsz : cfg.chunk_overlap < cfg.chunk_size) :
    ∀ (fuel : Nat) (start : Int) (acc chunks : List Chunk),
      -cfg.chunk_overlap ≤ start →
      (start < 0 → cfg.chunk_size ≤ (text.length : Int)) →
      (∀ c ∈ acc, chunkP cfg text c) →
      (start < (text.length : Int) → ∀ c ∈ acc, c.chunk_end < (text.length : Int)) →
      (∀ c ∈ acc.dropLast, c.chunk_end < (text.length : Int)) →
      chunkLoop cfg text fuel start acc = some chunks →
      (∀ c ∈ chunks, chunkP cfg text c) ∧
      (∀ c ∈ chunks.dropLast, c.chunk_end < (text.length : Int)) := by
  intro fuel
  induction fuel with
  | zero =>
    intro start acc chunks h1 h2 h3 h4 h5 hrun
    simp only [chunkLoop] at hrun
    split at hrun
    · exact absurd hrun (by simp)
    · cases hrun
      exact ⟨h3, h5⟩
  | succ n ih =>
    intro start acc chunks h1 h2 h3 h4 h5 hrun
    simp only [chunkLoop] at hrun
    split at hrun
    case isFalse =>
      cases hrun
      exact ⟨h3, h5⟩
    case isTrue hs =>
      have h0e : 0 ≤ start + cfg.chunk_size := by omega
      have hszpos : 0 < cfg.chunk_size := by omega
      obtain ⟨he1, he2, he3⟩ := chunkEndAt_bounds cfg text h0e hszpos
      -- facts about the next start
      have hns1 : -cfg.chunk_overlap ≤ nextStart cfg text start := by
        unfold nextStart
        split <;> omega
      have hns2 : nextStart cfg text start < 0 → cfg.chunk_size ≤ (text.length : Int) := by
        intro hneg
        unfold nextStart at hneg
        split at hneg
        case isTrue hlt =>
          have := chunkEndAt_lt_len cfg text hlt
          rcases lt_or_le start 0 with h | h
          · exact h2 h
          · omega
        case isFalse => omega
      by_cases hp : pieceAt cfg text start = []
      · -- nothing recorded this iteration
        rw [show nextAcc cfg text start acc = acc from by unfold nextAcc; rw [if_pos hp]] at hrun
        exact ih (nextStart cfg text start) acc chunks hns1 hns2 h3
          (fun _ => h4 hs) h5 hrun
      · -- a chunk is recorded
        have hstart0 : 0 ≤ start := by
          by_contra hneg
          exact hp (pieceAt_empty cfg text (by omega) hszpos h0e (h2 (by omega)))
        set C : Chunk := { text := pieceAt cfg text start, chunk_start := start,
                           chunk_end := chunkEndAt cfg text start,
                           chunk_index := acc.length } with hC
        rw [show nextAcc cfg text start acc = acc ++ [C] from by
          unfold nextAcc; rw [if_neg hp]] at hrun
        have hPC : chunkP cfg text C := ⟨hstart0, he1, he2, hs, rfl⟩
        refine ih (nextStart cfg text start) (acc ++ [C]) chunks hns1 hns2 ?_ ?_ ?_ hrun
        · intro c hc
          rcases List.mem_append.mp hc with h | h
          · exact h3 c h
          · rw [List.mem_singleton.mp h]
            exact hPC
        · intro hslt c hc
          rcases List.mem_append.mp hc with h | h
          · exact h4 hs c h
          · rw [List.mem_singleton.mp h]
            show C.chunk_end < (text.length : Int)
            by_contra hcend
            have : nextStart cfg text start = chunkEndAt cfg text start := by
              unfold nextStart
              rw [if_neg (by simp only [hC] at hcend; omega)]
            simp only [hC] at hcend
            omega
        · rw [List.dropLast_concat]
          exact h4 hs

lemma maxIdx_congr (p q : Nat → Bool) (h : ∀ i, p i = q i) :
    ∀ l, maxIdx p l = maxIdx q l
  | [] => rfl
  | i :: is => by
    simp only [maxIdx, h i, maxIdx_congr p q h is]

lemma maxIdx_or (p q : Nat → Bool) :
    ∀ l, maxIdx (fun i => p i || q i) l = max (maxIdx p l) (maxIdx q l)
  | [] => by simp [maxIdx]
  | i :: is => by
    simp only [maxIdx, maxIdx_or p q is]
    have hp := maxIdx_neg_one_le p is
    have hq := maxIdx_neg_one_le q is
    split <;> split <;> split <;> simp_all <;> omega

lemma maxIdx_or3 (A B C : Nat → Bool) (l : List Nat) :
    maxIdx (fun i => A i || (B i || C i)) l =
    max (maxIdx A l) (max (maxIdx B l) (maxIdx C l)) := by
  rw [maxIdx_or A (fun i => B i || C i) l, maxIdx_or B C l]

/-- On a non-negative start inside the text, the code's three-`rfind`
boundary computation agrees with the spec's single rightmost-delimiter
reading. -/
lemma chunkEndAt_eq_spec (cfg : Config) (text : List Char) {start : Int}
    (h0 : 0 ≤ start) (hlt : start < (text.length : Int)) (hsz : 0 < cfg.chunk_size) :
    chunkEndAt cfg text start = specChunkEnd cfg text start := by
  simp only [chunkEndAt, specChunkEnd]
  by_cases hb : start + cfg.chunk_size < (text.length : Int)
  case neg => rw [if_neg hb, if_neg hb]
  case pos =>
    rw [if_pos hb, if_pos hb]
    have hna : normIndex text.length start = start.toNat := by
      unfold normIndex
      rw [if_neg (by omega)]
      omega
    have hnb : normIndex text.length (start + cfg.chunk_size) =
        (start + cfg.chunk_size).toNat := by
      unfold normIndex
      rw [if_neg (by omega)]
      omega
    have c1 : pyRfind text '.' start (start + cfg.chunk_size) =
        maxIdx (fun i => decide (start.toNat ≤ i) && (text.get? i == some '.'))
          (List.range (start + cfg.chunk_size).toNat) := by
      unfold pyRfind
      rw [hna, hnb]
    have c2 : pyRfind text '\n' start (start + cfg.chunk_size) =
        maxIdx (fun i => decide (start.toNat ≤ i) && (text.get? i == some '\n'))
          (List.range (start + cfg.chunk_size).toNat) := by
      unfold pyRfind
      rw [hna, hnb]
    have c3 : pyRfind text ' ' start (start + cfg.chunk_size) =
        maxIdx (fun i => decide (start.toNat ≤ i) && (text.get? i == some ' '))
          (List.range (start + cfg.chunk_size).toNat) := by
      unfold pyRfind
      rw [hna, hnb]
    rw [c1, c2, c3, ← maxIdx_or3]
    have hpoint : ∀ i,
        (decide (start.toNat ≤ i) && (text.get? i == some '.') ||
          (decide (start.toNat ≤ i) && (text.get? i == some '\n') ||
           decide (start.toNat ≤ i) && (text.get? i == some ' '))) =
        (decide (start ≤ (i : Int)) && delimAt text i) := by
      intro i
      have hdq : decide (start.toNat ≤ i) = decide (start ≤ (i : Int)) :=
        decide_eq_decide.mpr (by omega)
      rw [hdq]
      simp only [delimAt, Bool.and_or_distrib_left]
    rw [maxIdx_congr _ _ hpoint]

end Chunker

/-- Claim C3: the spec demands that constructing a `TextChunker` with
`chunk_overlap >= chunk_size` fails fast as a configuration error.  The
code performs no such validation: `TextChunker(2, 2)` is constructed
silently, and `chunk_text("abc")` then loops forever (the loop returns to
`start = 0` after every iteration, so no fuel suffices). -/
theorem claim_C3 :
    Chunker.TextChunker.init 2 2 = Except.ok ⟨2, 2⟩ ∧
    ∀ fuel, Chunker.chunk_text ⟨2, 2⟩ (("abc").toList) fuel = none := by
  refine ⟨rfl, ?_⟩
  intro fuel
  have h := Chunker.chunkLoop_fixpoint ⟨2, 2⟩ (("abc").toList) 0
    (by decide) (by decide) fuel []
  unfold Chunker.chunk_text
  rw [if_neg (by decide)]
  exact h

/-- Claim C4: the spec claims `chunk_overlap < chunk_size` guarantees
forward progress and termination of `chunk_text`.  With the valid
configuration `chunk_size = 3`, `chunk_overlap = 2` and input
`"a bcdef"`, the delimiter snap sets `end = 2` and the advance rule puts
`start` back to `0`, so the loop never terminates. -/
theorem claim_C4 :
    ((0 : Int) ≤ 2 ∧ (2 : Int) < 3) ∧
    ∀ fuel, Chunker.chunk_text ⟨3, 2⟩ (("a bcdef").toList) fuel = none := by
  refine ⟨⟨by omega, by omega⟩, ?_⟩
  intro fuel
  have h := Chunker.chunkLoop_fixpoint ⟨3, 2⟩ (("a bcdef").toList) 0
    (by decide) (by decide) fuel []
  unfold Chunker.chunk_text
  rw [if_neg (by decide)]
  exact h

/-- Claim C1 (amended): for any configuration with
`chunk_size > chunk_overlap ≥ 0`, whenever `chunk_text` terminates every
recorded chunk satisfies
`0 ≤ chunk_start < chunk_end ≤ chunk_start + chunk_size` with
`chunk_start < len(text)`, and every chunk except possibly the last has
`chunk_end < len(text)`.  (The original claim's full-coverage,
exact-overlap-sharing and `chunk_end ≤ len(text)` conjuncts fail: the
final chunk keeps the unclamped end `chunk_start + chunk_size`, and
whitespace-only windows are dropped, leaving gaps.) -/
theorem claim_C1 (cfg : Chunker.Config) (text : List Char) (fuel : Nat)
    (chunks : List Chunker.Chunk)
    (hov : 0 ≤ cfg.chunk_overlap) (hsz : cfg.chunk_overlap < cfg.chunk_size)
    (hrun : Chunker.chunk_text cfg text fuel = some chunks) :
    (∀ c ∈ chunks, 0 ≤ c.chunk_start ∧ c.chunk_start < c.chunk_end ∧
      c.chunk_end ≤ c.chunk_start + cfg.chunk_size ∧
      c.chunk_start < (text.length : Int)) ∧
    (∀ c ∈ chunks.dropLast, c.chunk_end < (text.length : Int)) := by
  unfold Chunker.chunk_text at hrun
  by_cases ht : text = []
  · rw [if_pos ht] at hrun
    cases hrun
    exact ⟨by simp, by simp⟩
  · rw [if_neg ht] at hrun
    obtain ⟨hall, hlast⟩ := Chunker.chunkLoop_inv cfg text hov hsz fuel 0 [] chunks
      (by omega) (by omega) (by simp) (by simp) (by simp) hrun
    refine ⟨fun c hc => ?_, hlast⟩
    obtain ⟨p1, p2, p3, p4, _⟩ := hall c hc
    exact ⟨p1, p2, p3, p4⟩

/-- Claim C1 fails as stated: with `chunk_size = 2`, `chunk_overlap = 0`
(a valid configuration) and input `"ab  c"` the code returns the two
chunks `[0, 2)` and `[4, 6)`: positions 2 and 3 of the text are covered
by no chunk (the whitespace-only middle window was dropped), and the last
chunk's `chunk_end = 6` exceeds `len(text) = 5`. -/
theorem counterexample_C1 :
    (0 : Int) ≤ 0 ∧ (0 : Int) < 2 ∧
    Chunker.chunk_text ⟨2, 0⟩ (("ab  c").toList) 10 =
      some [⟨("ab").toList, 0, 2, 0⟩, ⟨("c").toList, 4, 6, 1⟩] ∧
    ¬ Chunker.chunkSpanClaim ⟨2, 0⟩ (("ab  c").toList)
        [⟨("ab").toList, 0, 2, 0⟩, ⟨("c").toList, 4, 6, 1⟩] := by
  refine ⟨by omega, by omega, by decide, ?_⟩
  unfold Chunker.chunkSpanClaim Chunker.coversAll Chunker.sharesExactOverlap
    Chunker.offsetsWithin
  decide

/-- Witness for claim C1 at the concrete run of `counterexample_C1`. -/
theorem claim_C1_witness :
    (∀ c ∈ [(⟨("ab").toList, 0, 2, 0⟩ : Chunker.Chunk), ⟨("c").toList, 4, 6, 1⟩],
      0 ≤ c.chunk_start ∧ c.chunk_start < c.chunk_end ∧
      c.chunk_end ≤ c.chunk_start + (2 : Int) ∧
      c.chunk_start < ((("ab  c").toList).length : Int)) ∧
    (∀ c ∈ ([(⟨("ab").toList, 0, 2, 0⟩ : Chunker.Chunk),
        ⟨("c").toList, 4, 6, 1⟩] : List Chunker.Chunk).dropLast,
      c.chunk_end < ((("ab  c").toList).length : Int)) :=
  claim_C1 ⟨2, 0⟩ (("ab  c").toList) 10
    [⟨("ab").toList, 0, 2, 0⟩, ⟨("c").toList, 4, 6, 1⟩]
    (by decide) (by decide) (by decide)

/-- Claim C2: `chunk_text` on empty text returns the empty sequence, and
every recorded chunk's end offset is exactly what the spec's boundary
rule prescribes for its start offset: tentatively `start + chunk_size`,
snapped to `p + 1` for the rightmost delimiter `p > start` of any kind in
the window whenever the tentative end lands strictly before `len(text)`,
with the hard cut kept otherwise. -/
theorem claim_C2 (cfg : Chunker.Config) (text : List Char) (fuel : Nat)
    (chunks : List Chunker.Chunk)
    (hov : 0 ≤ cfg.chunk_overlap) (hsz : cfg.chunk_overlap < cfg.chunk_size)
    (hrun : Chunker.chunk_text cfg text fuel = some chunks) :
    Chunker.chunk_text cfg [] fuel = some [] ∧
    ∀ c ∈ chunks, c.chunk_end = Chunker.specChunkEnd cfg text c.chunk_start := by
  refine ⟨rfl, fun c hc => ?_⟩
  unfold Chunker.chunk_text at hrun
  by_cases ht : text = []
  · rw [if_pos ht] at hrun
    cases hrun
    simp at hc
  · rw [if_neg ht] at hrun
    obtain ⟨hall, _⟩ := Chunker.chunkLoop_inv cfg text hov hsz fuel 0 [] chunks
      (by omega) (by omega) (by simp) (by simp) (by simp) hrun
    obtain ⟨p1, _, _, p4, p5⟩ := hall c hc
    rw [p5]
    exact Chunker.chunkEndAt_eq_spec cfg text p1 p4 (by omega)

/-- Witness for claim C2 at a concrete run in which the delimiter snap
fires: chunking `"ab cd"` with `chunk_size = 4`, `chunk_overlap = 1`. -/
theorem claim_C2_witness :
    Chunker.chunk_text ⟨4, 1⟩ [] 10 = some [] ∧
    ∀ c ∈ [(⟨("ab").toList, 0, 3, 0⟩ : Chunker.Chunk), ⟨("cd").toList, 2, 6, 1⟩],
      c.chunk_end = Chunker.specChunkEnd ⟨4, 1⟩ (("ab cd").toList) c.chunk_start :=
  claim_C2 ⟨4, 1⟩ (("ab cd").toList) 10
    [⟨("ab").toList, 0, 3, 0⟩, ⟨("cd").toList, 2, 6, 1⟩]
    (by decide) (by decide) (by decide)

namespace MCP

/-- The JSON-ish value universe carried in requests and responses. -/
inductive Value where
  | null
  | str (s : String)
  | num (n : Int)
  | emptyObj
deriving DecidableEq, Repr

/-- `MCPResponse` from `mcp/protocol.py`: `result: Optional[Any] = None`
(Python's `None` is `Value.null`), `error: Optional[str] = None`,
`id: Optional[str] = None`. -/
structure MCPResponse where
  result : Value := Value.null
  error : Option String := none
  id : Option String := none
deriving DecidableEq, Repr

/-- Python truthiness of the `error` field, as tested by
`if self.error:` — `None` and the empty string are falsy. -/
def errTruthy : Option String → Bool
  | none => false
  | some s => decide (s ≠ "")

/-- The serialized dictionary: `type` and `id` keys are always written,
at most one of `result` / `error` is present. -/
structure WireResponse where
  type : String
  id : Option String
  result : Option Value
  error : Option String
deriving DecidableEq, Repr

/-- `MCPResponse.to_dict`: writes the `error` key when `self.error` is
truthy, otherwise writes the `result` key. -/
def MCPResponse.to_dict (r : MCPResponse) : WireResponse :=
  if errTruthy r.error then
    { type := ("response"), id := r.id, result := none, error := r.error }
  else
    { type := ("response"), id := r.id, result := some r.result, error := none }

/-- `MCPResponse.from_dict`: reads `result` / `error` / `id` with
`dict.get`, missing keys decoding to `None`. -/
def MCPResponse.from_dict (d : WireResponse) : MCPResponse :=
  { result := d.result.getD Value.null, error := d.error, id := d.id }

/-- The decoded POST body of the `/mcp` route: each field read with
`dict.get`, so any of them may be absent. -/
structure Payload where
  type : Option String := none
  method : Option String := none
  params : Option Value := none
  id : Option String := none
deriving DecidableEq, Repr

/-- A registered method handler; raising is modelled by `Except.error`. -/
abbrev Handler := Value → Except String Value

/-- `method not in self.handlers` — a missing `method` key (`None`) is
never a dictionary key. -/
def hlookup : Option String → List (String × Handler) → Option Handler
  | none, _ => none
  | some s, hs => hs.lookup s

/-- How Python's f-string renders the looked-up `method` value. -/
def methodName : Option String → String
  | some s => s
  | none => "None"

/-- The body of an HTTP reply from the route: either the raw
transport-error envelope or a jsonified `MCPResponse`. -/
inductive HttpBody where
  | envelope (type : String) (error : String)
  | response (w : WireResponse)
deriving DecidableEq, Repr

/-- The `/mcp` POST route of `mcp/server.py` (`handle_mcp_request`),
returning the reply body and the HTTP status code. -/
def handle_mcp_request (handlers : List (String × Handler)) (data : Option Payload) :
    HttpBody × Nat :=
  match data with
  | none => (HttpBody.envelope ("error") ("Invalid request format"), 400)
  | some d =>
    if d.type ≠ some ("request") then
      (HttpBody.envelope ("error") ("Invalid request format"), 400)
    else
      match hlookup d.method handlers with
      | none =>
        (HttpBody.response (MCPResponse.to_dict
          { result := Value.null,
            error := some (("Method \x27") ++ methodName d.method ++ ("\x27 not found")),
            id := d.id }), 404)
      | some h =>
        match h (d.params.getD Value.emptyObj) with
        | Except.ok v =>
          (HttpBody.response (MCPResponse.to_dict
            { result := v, error := none, id := d.id }), 200)
        | Except.error e =>
          (HttpBody.response (MCPResponse.to_dict
            { result := Value.null,
              error := some (("Error executing method: ") ++ e),
              id := d.id }), 500)

/-- The spec's reading of the dispatch, with the response envelopes
written out directly at the wire level: missing/ill-typed payload gives
an error envelope and 400; an unknown method echoes the id with the
not-found message and 404; a raising handler echoes the id with the
execution-error message and 500; otherwise the handler's value is
returned as `result` with the id echoed and 200. -/
def specDispatch (handlers : List (String × Handler)) (data : Option Payload) :
    HttpBody × Nat :=
  match data with
  | none => (HttpBody.envelope ("error") ("Invalid request format"), 400)
  | some d =>
    if d.type = some ("request") then
      match hlookup d.method handlers with
      | none =>
        (HttpBody.response
          { type := ("response"), id := d.id, result := none,
            error := some (("Method \x27") ++ methodName d.method ++ ("\x27 not found")) },
          404)
      | some h =>
        match h (d.params.getD Value.emptyObj) with
        | Except.ok v =>
          (HttpBody.response
            { type := ("response"), id := d.id, result := some v, error := none }, 200)
        | Except.error e =>
          (HttpBody.response
            { type := ("response"), id := d.id, result := none,
              error := some (("Error executing method: ") ++ e) }, 500)
    else (HttpBody.envelope ("error") ("Invalid request format"), 400)

lemma append_ne_empty (s t : String) (h : 0 < s.length) : s ++ t ≠ "" := by
  intro he
  have h2 := congrArg String.length he
  rw [String.length_append] at h2
  have h3 : ("" : String).length = 0 := rfl
  omega

lemma method_msg_truthy (m : String) :
    errTruthy (some (("Method \x27") ++ m ++ ("\x27 not found"))) = true := by
  simp only [errTruthy, decide_eq_true_eq]
  apply append_ne_empty
  rw [String.length_append]
  have h8 : ("Method \x27").length = 8 := rfl
  omega

lemma exec_msg_truthy (e : String) :
    errTruthy (some (("Error executing method: ") ++ e)) = true := by
  simp only [errTruthy, decide_eq_true_eq]
  apply append_ne_empty
  have h24 : ("Error executing method: ").length = 24 := rfl
  omega

end MCP

/-- Claim C5: the `/mcp` dispatch behaves exactly as the spec describes —
missing or non-`request` payloads get an error envelope with status 400,
unknown methods get `error = "Method '<method>' not found"` with the id
echoed and status 404, raising handlers get
`error = "Error executing method: <message>"` with the id echoed and
status 500, and successful handlers get their return value as `result`
with the id echoed and status 200. -/
theorem claim_C5 (handlers : List (String × MCP.Handler)) (data : Option MCP.Payload) :
    MCP.handle_mcp_request handlers data = MCP.specDispatch handlers data := by
  cases data with
  | none => rfl
  | some d =>
    simp only [MCP.handle_mcp_request, MCP.specDispatch]
    by_cases ht : d.type = some ("request")
    · rw [if_neg (not_not_intro ht), if_pos ht]
      cases hl : MCP.hlookup d.method handlers with
      | none => simp [hl, MCP.MCPResponse.to_dict, MCP.method_msg_truthy]
      | some h =>
        cases hr : h (d.params.getD MCP.Value.emptyObj) with
        | ok v => simp [hl, hr, MCP.MCPResponse.to_dict, MCP.errTruthy]
        | error e => simp [hl, hr, MCP.MCPResponse.to_dict, MCP.exec_msg_truthy]
    · rw [if_pos ht, if_neg ht]

/-- Claim C6: for every constructible `MCPResponse`, the serialized form
contains exactly one of the keys `result` and `error` — never both and
never neither. -/
theorem claim_C6 (r : MCP.MCPResponse) :
    Xor' ((MCP.MCPResponse.to_dict r).result.isSome = true)
      ((MCP.MCPResponse.to_dict r).error.isSome = true) := by
  obtain ⟨res, err, rid⟩ := r
  rcases err with _ | s
  · simp [MCP.MCPResponse.to_dict, MCP.errTruthy, Xor']
  · by_cases hs : s = "" <;>
      simp [MCP.MCPResponse.to_dict, MCP.errTruthy, hs, Xor']

/-- Claim C7 fails as stated: a response whose `error` field is present
but equal to the empty string is serialized through the `result` branch
(Python truthiness), so decoding yields `error = None`, not the original
empty string. -/
theorem counterexample_C7 :
    MCP.MCPResponse.from_dict (MCP.MCPResponse.to_dict
      { result := MCP.Value.null, error := some (""), id := some ("x") }) ≠
    { result := MCP.Value.null, error := some (""), id := some ("x") } := by
  decide

/-- Claim C7 (amended): encoding then decoding an `MCPResponse` is the
identity on the success variant (`error` absent), and preserves `id` and
`error` on the error variant provided the error string is non-empty
(a present-but-empty error string is falsy in Python and serializes as a
success envelope). -/
theorem claim_C7 (r : MCP.MCPResponse) :
    (r.error = none →
      MCP.MCPResponse.from_dict (MCP.MCPResponse.to_dict r) = r) ∧
    (∀ e, r.error = some e → e ≠ "" →
      (MCP.MCPResponse.from_dict (MCP.MCPResponse.to_dict r)).id = r.id ∧
      (MCP.MCPResponse.from_dict (MCP.MCPResponse.to_dict r)).error = r.error) := by
  obtain ⟨res, err, rid⟩ := r
  constructor
  · intro h
    simp only at h
    subst h
    simp [MCP.MCPResponse.to_dict, MCP.MCPResponse.from_dict, MCP.errTruthy]
  · intro e he hne
    simp only at he
    subst he
    simp [MCP.MCPResponse.to_dict, MCP.MCPResponse.from_dict, MCP.errTruthy, hne]

/-- Witness for claim C7: a concrete success-variant and a concrete
error-variant round trip. -/
theorem claim_C7_witness :
    (MCP.MCPResponse.from_dict (MCP.MCPResponse.to_dict
      { result := MCP.Value.str ("v"), error := none, id := some ("i") }) =
      { result := MCP.Value.str ("v"), error := none, id := some ("i") }) ∧
    ((MCP.MCPResponse.from_dict (MCP.MCPResponse.to_dict
        { result := MCP.Value.null, error := some ("bad"), id := some ("j") })).id =
        some ("j") ∧
     (MCP.MCPResponse.from_dict (MCP.MCPResponse.to_dict
        { result := MCP.Value.null, error := some ("bad"), id := some ("j") })).error =
        some ("bad")) :=
  ⟨(claim_C7 _).1 rfl, (claim_C7 _).2 ("bad") rfl (by decide)⟩

namespace RAG

/-- A document as returned by the vector store: `format_context` reads
its `document` field. -/
structure RetrievedDoc where
  document : String
deriving DecidableEq, Repr

/-- An opaque metadata filter, passed through verbatim. -/
abbrev Filt := List (String × String)

/-- Python `sep.join(parts)`. -/
def pyJoin (sep : String) : List String → String
  | [] => ""
  | [s] => s
  | s :: t :: rest => s ++ sep ++ pyJoin sep (t :: rest)

/-- The `context_parts` list built by `Retriever.format_context`: for
each document (1-indexed) the header line, the document text, and an
empty string. -/
def contextParts : Nat → List RetrievedDoc → List String
  | _, [] => []
  | i, d :: rest =>
    (("[Document ") ++ toString i ++ ("]")) :: d.document :: ("") ::
      contextParts (i + 1) rest

/-- `Retriever.format_context`: `""` on empty input, otherwise
`"\n".join(context_parts)`. -/
def format_context (docs : List RetrievedDoc) : String :=
  if docs = [] then ("") else pyJoin ("\n") (contextParts 1 docs)

/-- The spec's reading: blocks `"[Document i]\n<text>\n"` (1-indexed). -/
def specBlocks : Nat → List RetrievedDoc → List String
  | _, [] => []
  | i, d :: rest =>
    ((("[Document ") ++ toString i ++ ("]")) ++ ("\n") ++ d.document ++ ("\n")) ::
      specBlocks (i + 1) rest

/-- The spec's reading of `format_context`: `""` for empty input,
otherwise the blocks joined in input order, separated by blank lines. -/
def format_context_spec (docs : List RetrievedDoc) : String :=
  if docs = [] then ("") else pyJoin ("\n") (specBlocks 1 docs)

/-- `Retriever.retrieve`, with the vector store's `similarity_search`
abstracted as `ss`: `k = k or self.top_k` (Python truthiness: `None`
and `0` both fall back to `top_k`), then the search is called with the
resolved `k` and the verbatim `filter`. -/
def retrieve (ss : String → Int → Option Filt → List RetrievedDoc)
    (top_k : Int) (query : String) (k : Option Int) (filt : Option Filt) :
    List RetrievedDoc :=
  let kk := match k with
    | some v => if v = 0 then top_k else v
    | none => top_k
  ss query kk filt

/-- Token usage as reported by the chat completion. -/
structure Usage where
  prompt_tokens : Nat
  completion_tokens : Nat
  total_tokens : Nat
deriving DecidableEq, Repr

/-- A successful chat completion: the answer text and its usage. -/
structure ChatOk where
  content : String
  usage : Usage
deriving DecidableEq, Repr

/-- The default system prompt of `Generator.generate`. -/
def default_system_prompt : String :=
  "You are a helpful assistant that answers questions based on the provided context. If the context doesn\x27t contain relevant information, say so. Always cite which document(s) you used to answer."

/-- The user message `Generator.generate` builds from context and query. -/
def user_message (context query : String) : String :=
  ("Context:\n") ++ context ++ ("\n\nQuestion: ") ++ query ++
    ("\n\nPlease answer the question based on the context provided above.")

/-- What `Generator.generate` returns: a dictionary with `answer`,
`model` and `usage` on success, or `answer=None` and `error` on failure. -/
structure GenResult where
  answer : Option String
  model : Option String
  usage : Option Usage
  error : Option String
deriving DecidableEq, Repr

/-- `Generator.generate` with the LLM call abstracted as `backend`; the
`try/except` around the call is modelled by `Except`: a raising backend
is caught and turned into `answer=None, error=str(e)`. -/
def generate (backend : String → List (String × String) → Except String ChatOk)
    (model query context : String) (system_prompt : Option String) : GenResult :=
  let sp := system_prompt.getD default_system_prompt
  let um := user_message context query
  match backend model [(("system"), sp), (("user"), um)] with
  | Except.ok r =>
    { answer := some r.content, model := some model, usage := some r.usage, error := none }
  | Except.error e =>
    { answer := none, model := none, usage := none, error := some e }

/-- The dictionary `RAGPipeline.query` returns: the generator's result
with `retrieved_documents` and `num_documents` attached. -/
structure QueryResult where
  answer : Option String
  model : Option String
  usage : Option Usage
  error : Option String
  retrieved_documents : List RetrievedDoc
  num_documents : Nat
deriving DecidableEq, Repr

/-- `RAGPipeline.query`: retrieve, format the context, generate, then
always attach the retrieved documents and their count. -/
def RAGPipeline.query
    (ss : String → Int → Option Filt → List RetrievedDoc)
    (backend : String → List (String × String) → Except String ChatOk)
    (genModel : String) (top_k : Int) (q : String) (k : Option Int)
    (filt : Option Filt) (system_prompt : Option String) : QueryResult :=
  let docs := retrieve ss top_k q k filt
  let ctx := format_context docs
  let g := generate backend genModel q ctx system_prompt
  { answer := g.answer, model := g.model, usage := g.usage, error := g.error,
    retrieved_documents := docs, num_documents := docs.length }

lemma pyJoin_cons_of_ne (sep a : String) (l : List String) (h : l ≠ []) :
    pyJoin sep (a :: l) = a ++ sep ++ pyJoin sep l := by
  cases l with
  | nil => exact absurd rfl h
  | cons x xs => rfl

lemma contextParts_ne_nil (i : Nat) (d : RetrievedDoc) (ds : List RetrievedDoc) :
    contextParts i (d :: ds) ≠ [] := by
  simp [contextParts]

lemma specBlocks_ne_nil (i : Nat) (d : RetrievedDoc) (ds : List RetrievedDoc) :
    specBlocks i (d :: ds) ≠ [] := by
  simp [specBlocks]

lemma parts_eq_blocks : ∀ (docs : List RetrievedDoc) (i : Nat),
    pyJoin ("\n") (contextParts i docs) = pyJoin ("\n") (specBlocks i docs) := by
  intro docs
  induction docs with
  | nil => intro i; rfl
  | cons d rest ih =>
    intro i
    cases rest with
    | nil =>
      simp only [contextParts, specBlocks, pyJoin]
      simp [String.append_assoc, String.append_empty]
    | cons e rest2 =>
      show pyJoin ("\n") ((("[Document ") ++ toString i ++ ("]")) :: d.document :: ("") ::
          contextParts (i + 1) (e :: rest2)) =
        pyJoin ("\n") (((("[Document ") ++ toString i ++ ("]")) ++ ("\n") ++ d.document ++ ("\n")) ::
          specBlocks (i + 1) (e :: rest2))
      rw [pyJoin_cons_of_ne _ _ _ (by simp [contextParts_ne_nil]),
        pyJoin_cons_of_ne _ _ _ (by simp [contextParts_ne_nil]),
        pyJoin_cons_of_ne _ _ _ (contextParts_ne_nil _ _ _),
        pyJoin_cons_of_ne _ _ _ (specBlocks_ne_nil _ _ _),
        ih (i + 1)]
      simp [String.append_assoc, String.empty_append]
      rw [show ("\n\n" : String) = ("\n") ++ ("\n") from by decide, String.append_assoc]

/-- A probe vector store that records the `k` it was called with, to
exhibit the `k = 0` fallback. -/
def ssProbe : String → Int → Option Filt → List RetrievedDoc :=
  fun _ kk _ => [{ document := toString kk }]

end RAG

/-- Claim C8: `format_context` returns `""` on the empty list and
otherwise the 1-indexed `"[Document i]\n<text>\n"` blocks, separated by
blank lines, in input order — and on `[{document:"A"},{document:"B"}]`
produces exactly the claimed string. -/
theorem claim_C8 :
    (∀ docs : List RAG.RetrievedDoc,
      RAG.format_context docs = RAG.format_context_spec docs) ∧
    RAG.format_context [{ document := ("A") }, { document := ("B") }] =
      ("[Document 1]\nA\n\n[Document 2]\nB\n") := by
  constructor
  · intro docs
    by_cases h : docs = [] <;>
      simp [h, RAG.format_context, RAG.format_context_spec, RAG.parts_eq_blocks]
  · decide

/-- Claim C9: `RAGPipeline.query` always attaches `retrieved_documents`
and `num_documents` to the generator's result, and when the generation
backend fails the result carries `answer = None` together with the
backend's error message, unchanged. -/
theorem claim_C9
    (ss : String → Int → Option RAG.Filt → List RAG.RetrievedDoc)
    (backend : String → List (String × String) → Except String RAG.ChatOk)
    (genModel : String) (top_k : Int) (q : String) (k : Option Int)
    (filt : Option RAG.Filt) (sp : Option String) :
    (RAG.RAGPipeline.query ss backend genModel top_k q k filt sp).retrieved_documents =
      RAG.retrieve ss top_k q k filt ∧
    (RAG.RAGPipeline.query ss backend genModel top_k q k filt sp).num_documents =
      (RAG.retrieve ss top_k q k filt).length ∧
    (∀ e, backend genModel
        [(("system"), sp.getD RAG.default_system_prompt),
         (("user"), RAG.user_message
            (RAG.format_context (RAG.retrieve ss top_k q k filt)) q)] =
        Except.error e →
      (RAG.RAGPipeline.query ss backend genModel top_k q k filt sp).answer = none ∧
      (RAG.RAGPipeline.query ss backend genModel top_k q k filt sp).error = some e) := by
  refine ⟨rfl, rfl, fun e he => ?_⟩
  simp [RAG.RAGPipeline.query, RAG.generate, he]

/-- Witness for claim C9 with a concretely failing backend. -/
theorem claim_C9_witness :
    (RAG.RAGPipeline.query (fun _ _ _ => [{ document := ("A") }])
      (fun _ _ => Except.error ("boom")) ("m") 5 ("q") none none none).answer = none ∧
    (RAG.RAGPipeline.query (fun _ _ _ => [{ document := ("A") }])
      (fun _ _ => Except.error ("boom")) ("m") 5 ("q") none none none).error =
      some ("boom") :=
  (claim_C9 (fun _ _ _ => [{ document := ("A") }]) (fun _ _ => Except.error ("boom"))
    ("m") 5 ("q") none none none).2.2 ("boom") rfl

/-- Claim C10 fails as stated: a supplied `k = 0` is *not* passed
through — `k or self.top_k` treats `0` as falsy, so the store is queried
with `top_k = 5` instead of `0`. -/
theorem counterexample_C10 :
    RAG.retrieve RAG.ssProbe 5 ("q") (some 0) none ≠ RAG.ssProbe ("q") 0 none := by
  decide

/-- Claim C10 (amended): the supplied `k` reaches the vector store
unmodified whenever it is non-`None` *and* non-zero; `k = None` and
`k = 0` both fall back to the configured `top_k` (Python truthiness of
`k or self.top_k`); `filter` is always passed through verbatim,
including `None`, and `RAGPipeline.query` delegates `k` and `filter`
unchanged to `Retriever.retrieve`. -/
theorem claim_C10
    (ss : String → Int → Option RAG.Filt → List RAG.RetrievedDoc)
    (top_k : Int) (q : String) (filt : Option RAG.Filt) :
    RAG.retrieve ss top_k q none filt = ss q top_k filt ∧
    RAG.retrieve ss top_k q (some 0) filt = ss q top_k filt ∧
    (∀ v : Int, v ≠ 0 → RAG.retrieve ss top_k q (some v) filt = ss q v filt) ∧
    (∀ backend genModel k sp,
      (RAG.RAGPipeline.query ss backend genModel top_k q k filt sp).retrieved_documents =
        RAG.retrieve ss top_k q k filt) := by
  refine ⟨rfl, rfl, fun v hv => ?_, fun _ _ _ _ => rfl⟩
  simp [RAG.retrieve, hv]

/-- Witness for claim C10: a non-zero supplied `k` is passed through. -/
theorem claim_C10_witness :
    RAG.retrieve RAG.ssProbe 5 ("q") (some 3) none = RAG.ssProbe ("q") 3 none :=
  (claim_C10 RAG.ssProbe 5 ("q") none).2.2.1 3 (by omega)
